import Mathlib

/-!
Shallow embedding of the position-accounting engine of `src/src/App.tsx`
(sol-paper-trader). JavaScript numbers are modelled as rationals (`ℚ`),
optional fields as `Option`, and wall-clock timestamps as explicit
parameters. Each state-transition function mirrors the corresponding
`setState` updater in the source: a rejected operation returns the input
state unchanged, exactly as the code does.
-/

namespace SolPaperTrader

/-- `type HistoryPoint = { t: number; balance: number; openValue: number }` -/
structure HistoryPoint where
  t : ℤ
  balance : ℚ
  openValue : ℚ
deriving DecidableEq, Repr

/-- Position status: the source uses the string union `"open" | "sold"`. -/
inductive Status where
  | open_
  | sold
deriving DecidableEq, Repr

/-- `type Entry` from the source (lines 35-53). Fields marked `?` in
TypeScript are `Option`s here. -/
structure Entry where
  id : String
  name : String
  entryMarketCap : ℚ
  currentMarketCap : Option ℚ
  solInvested : ℚ
  status : Status
  cumulativeBuySOL : Option ℚ
  cumulativeSellAmount : Option ℚ
  cumulativeSellReturnedSOL : Option ℚ
  realizedPnl : Option ℚ
  sellMarketCap : Option ℚ
  solReturned : Option ℚ
  pnl : Option ℚ
  pnlPercent : Option ℚ
  soldAt : Option String
deriving DecidableEq, Repr

/-- `type AppState` from the source (lines 25-31); `history?` is optional. -/
structure AppState where
  startingBalance : Option ℚ
  balance : ℚ
  entries : List Entry
  nextId : ℕ
  history : Option (List HistoryPoint)
deriving DecidableEq, Repr

/-- The source's `entries[idx] = updated` after `findIndex`: replace the
first entry satisfying `p` by `f` of it, leaving the rest alone. -/
def modifyFirst (p : Entry → Bool) (f : Entry → Entry) : List Entry → List Entry
  | [] => []
  | e :: es => if p e then f e :: es else e :: modifyFirst p f es

/-- JavaScript's `String.prototype.trim()`: drop leading and trailing
whitespace (kernel-computable rendition). -/
def trimStr (s : String) : String :=
  ⟨((s.data.dropWhile Char.isWhitespace).reverse.dropWhile Char.isWhitespace).reverse⟩

/-- `setStartingBalance(n)` (line 173): fresh state, no `history` field. -/
def setStartingBalance (n : ℚ) : AppState :=
  { startingBalance := some n, balance := n, entries := [], nextId := 1,
    history := none }

/-- `resetAll()` (line 303): back to the uninitialized state. -/
def resetAll : AppState :=
  { startingBalance := none, balance := 0, entries := [], nextId := 1,
    history := none }

/-- `addEntry(data)` (lines 177-195): open a new position, prepending it,
after the `balance < solInvested` check. -/
def addEntry (s : AppState) (name : String) (entryMarketCap solInvested : ℚ) :
    AppState :=
  if s.balance < solInvested then s
  else
    let nm := if trimStr name = "" then "Entry #" ++ toString s.nextId else trimStr name
    let entry : Entry :=
      { id := toString s.nextId
        name := nm
        entryMarketCap := entryMarketCap
        currentMarketCap := some entryMarketCap
        solInvested := solInvested
        status := Status.open_
        cumulativeBuySOL := some solInvested
        cumulativeSellAmount := some 0
        cumulativeSellReturnedSOL := some 0
        realizedPnl := some 0
        sellMarketCap := none
        solReturned := none
        pnl := none
        pnlPercent := none
        soldAt := none }
    { s with balance := s.balance - solInvested,
             entries := entry :: s.entries,
             nextId := s.nextId + 1 }

/-- `updateCurrentMcap(id, mcap)` (lines 197-205): set `currentMarketCap`
on the first entry with this id; note the source has no status check. -/
def updateCurrentMcap (s : AppState) (id : String) (mcap : ℚ) : AppState :=
  match s.entries.find? (fun e => e.id == id) with
  | none => s
  | some _ =>
    let entries := modifyFirst (fun e => e.id == id)
      (fun e => { e with currentMarketCap := some mcap }) s.entries
    { s with entries := entries }

/-- The `updates` record of `editEntry`:
`Partial<Pick<Entry, "name" | "entryMarketCap" | "solInvested">>`. -/
structure EntryUpdates where
  name : Option String
  entryMarketCap : Option ℚ
  solInvested : Option ℚ

/-- `editEntry(id, updates)` (lines 207-228). Name updates freely; the
`entryMarketCap` update requires `isFinitePos`; the `solInvested` update
computes `delta`, rejects when `delta > 0 && balance < delta`, else sets
`solInvested = max(0, newValue)` and `balance -= delta`. -/
def editEntry (s : AppState) (id : String) (u : EntryUpdates) : AppState :=
  match s.entries.find? (fun e => e.id == id) with
  | none => s
  | some e =>
    if e.status ≠ Status.open_ then s
    else
      let upd1 : Entry := match u.name with
        | some nm => { e with name := nm }
        | none => e
      let upd2 : Entry := match u.entryMarketCap with
        | some m => if 0 < m then { upd1 with entryMarketCap := m } else upd1
        | none => upd1
      match u.solInvested with
      | some v =>
        let delta := v - e.solInvested
        if 0 < delta ∧ s.balance < delta then s
        else
          let entries := modifyFirst (fun x => x.id == id)
            (fun _ => { upd2 with solInvested := max 0 v }) s.entries
          { s with balance := s.balance - delta, entries := entries }
      | none =>
        let entries := modifyFirst (fun x => x.id == id) (fun _ => upd2) s.entries
        { s with entries := entries }

/-- `buyMore(id, currentMcap, buyAmountSOL)` (lines 231-249): DCA buy with
weighted-average recompute of `entryMarketCap`. -/
def buyMore (s : AppState) (id : String) (currentMcap buyAmountSOL : ℚ) :
    AppState :=
  match s.entries.find? (fun e => e.id == id) with
  | none => s
  | some e =>
    if e.status ≠ Status.open_ then s
    else if s.balance < buyAmountSOL then s
    else
      let curInv := e.solInvested
      let newAvg := (e.entryMarketCap * curInv + currentMcap * buyAmountSOL) /
        (curInv + buyAmountSOL)
      let updated : Entry :=
        { e with entryMarketCap := newAvg
                 currentMarketCap := some currentMcap
                 solInvested := curInv + buyAmountSOL
                 cumulativeBuySOL := some ((e.cumulativeBuySOL.getD 0) + buyAmountSOL) }
      let entries := modifyFirst (fun x => x.id == id) (fun _ => updated) s.entries
      { s with balance := s.balance - buyAmountSOL, entries := entries }

/-- The closure epsilon `0.0000001` of `partialSell`. -/
def closeEps : ℚ := 1 / 10000000

/-- `partialSell(id, sellMcap, sellAmountSOL)` (lines 252-291): partial or
full sell; closes the position when the remainder is `<= 0.0000001`.
`now` stands in for `new Date().toISOString()`. -/
def partialSell (s : AppState) (id : String) (sellMcap sellAmountSOL : ℚ)
    (now : String) : AppState :=
  match s.entries.find? (fun e => e.id == id) with
  | none => s
  | some e =>
    if e.status ≠ Status.open_ then s
    else if sellAmountSOL ≤ 0 ∨ e.solInvested < sellAmountSOL then s
    else
      let multiplier := sellMcap / e.entryMarketCap
      let returned := sellAmountSOL * multiplier
      let realized := returned - sellAmountSOL
      let remaining := e.solInvested - sellAmountSOL
      let upd1 : Entry :=
        { e with currentMarketCap := some sellMcap
                 solInvested := remaining
                 realizedPnl := some ((e.realizedPnl.getD 0) + realized)
                 cumulativeSellAmount := some ((e.cumulativeSellAmount.getD 0) + sellAmountSOL)
                 cumulativeSellReturnedSOL := some ((e.cumulativeSellReturnedSOL.getD 0) + returned)
                 sellMarketCap := some sellMcap }
      let updated : Entry :=
        if remaining ≤ closeEps then
          let pnl := upd1.realizedPnl.getD 0
          let totalBuys := upd1.cumulativeBuySOL.getD 0
          { upd1 with status := Status.sold
                      solReturned := upd1.cumulativeSellReturnedSOL
                      pnl := some pnl
                      pnlPercent := some (if 0 < totalBuys then pnl / totalBuys * 100 else 0)
                      soldAt := some now
                      solInvested := 0 }
        else upd1
      let entries := modifyFirst (fun x => x.id == id) (fun _ => updated) s.entries
      { s with balance := s.balance + returned, entries := entries }

/-- `adjustBalance(delta)` (lines 293-301). -/
def adjustBalance (s : AppState) (delta : ℚ) : AppState :=
  let next := s.balance + delta
  if next < 0 then s else { s with balance := next }

/-- The open-position mark-to-market sum used by `pushHistoryPoint` and
the `totals` memo: `Σ solInvested * mult` with
`mult = cur > 0 ? cur / entryMarketCap : 1`, `cur = currentMarketCap ?? entryMarketCap`. -/
def openValueOf (s : AppState) : ℚ :=
  (s.entries.filter (fun e => e.status == Status.open_)).foldl
    (fun sum e =>
      let cur := e.currentMarketCap.getD e.entryMarketCap
      let mult := if 0 < cur then cur / e.entryMarketCap else 1
      sum + e.solInvested * mult) 0

/-- The dedup tolerance `1e-9` of `pushHistoryPoint`. -/
def histEps : ℚ := 1 / 1000000000

/-- `pushHistoryPoint()` (lines 113-131): append a `(t, balance, openValue)`
point unless both coordinates are within `1e-9` of the last point.
`t` stands in for `Date.now()`. -/
def pushHistoryPoint (s : AppState) (t : ℤ) : AppState :=
  let openValue := openValueOf s
  let h := s.history.getD []
  let point : HistoryPoint := { t := t, balance := s.balance, openValue := openValue }
  match h.getLast? with
  | some last =>
    if |last.balance - point.balance| < histEps ∧
       |last.openValue - point.openValue| < histEps then s
    else { s with history := some (h ++ [point]) }
  | none => { s with history := some (h ++ [point]) }

/-- The shape of a successfully `JSON.parse`d stored object, as far as
`loadState` inspects it: `balance` is `none` when `typeof parsed.balance`
is not `"number"`, `entries` is `none` when `parsed.entries` is not an
array, `nextId`/`startingBalance` are `none` when absent or null (the
source applies `?? 1` / `?? null`), and `history` is `none` when
`parsed.history` is not an array. -/
structure RawState where
  startingBalance : Option ℚ
  balance : Option ℚ
  entries : Option (List Entry)
  nextId : Option ℕ
  history : Option (List HistoryPoint)

/-- What `localStorage.getItem` + `JSON.parse` can hand to `loadState`:
nothing stored, an unparsable/falsy value (the `catch` and the `!parsed`
check), or a parsed object. -/
inductive StoredInput where
  | missing
  | malformed
  | parsed (r : RawState)

/-- The canonical uninitialized state `loadState` falls back to:
`{ startingBalance: null, balance: 0, entries: [], nextId: 1, history: [] }`. -/
def defaultState : AppState :=
  { startingBalance := none, balance := 0, entries := [], nextId := 1,
    history := some [] }

/-- `loadState()` (lines 60-80): total function over `StoredInput`. -/
def loadState : StoredInput → AppState
  | StoredInput.missing => defaultState
  | StoredInput.malformed => defaultState
  | StoredInput.parsed r =>
    match r.balance, r.entries with
    | some b, some es =>
      { startingBalance := r.startingBalance
        balance := b
        entries := es
        nextId := r.nextId.getD 1
        history := some (r.history.getD []) }
    | some _, none => defaultState
    | none, _ => defaultState

/-- States reachable through the engine operations, with arguments
pre-validated exactly as the presentation layer does before each call
(`isFinitePos` on marks and buy amounts, any finite number elsewhere). -/
inductive Reachable : AppState → Prop where
  | init (n : ℚ) : 0 < n → Reachable (setStartingBalance n)
  | reset : Reachable resetAll
  | add (s : AppState) (nm : String) (emc inv : ℚ) :
      Reachable s → 0 < emc → 0 < inv → Reachable (addEntry s nm emc inv)
  | mark (s : AppState) (id : String) (m : ℚ) :
      Reachable s → 0 < m → Reachable (updateCurrentMcap s id m)
  | edit (s : AppState) (id : String) (u : EntryUpdates) :
      Reachable s → Reachable (editEntry s id u)
  | buy (s : AppState) (id : String) (m a : ℚ) :
      Reachable s → 0 < m → 0 < a → Reachable (buyMore s id m a)
  | sell (s : AppState) (id : String) (m a : ℚ) (now : String) :
      Reachable s → 0 < m → 0 < a → Reachable (partialSell s id m a now)
  | adjust (s : AppState) (d : ℚ) : Reachable s → Reachable (adjustBalance s d)
  | push (s : AppState) (t : ℤ) : Reachable s → Reachable (pushHistoryPoint s t)

/-- The entry-level invariant: positive cost basis, non-negative open
principal, and zero principal once sold. -/
def EntryOK (e : Entry) : Prop :=
  0 < e.entryMarketCap ∧ 0 ≤ e.solInvested ∧
    (e.status = Status.sold → e.solInvested = 0)

/-- The ledger-level invariant maintained by every engine operation:
non-negative cash and `EntryOK` for every entry. -/
def ValidState (s : AppState) : Prop :=
  0 ≤ s.balance ∧ ∀ e ∈ s.entries, EntryOK e

/-- Total capital committed by a list of `(mark, amount)` buys. -/
def asum (l : List (ℚ × ℚ)) : ℚ := (l.map Prod.snd).sum

/-- Mark-weighted capital committed by a list of `(mark, amount)` buys. -/
def wsum (l : List (ℚ × ℚ)) : ℚ := (l.map (fun b => b.1 * b.2)).sum

/-- Fold a sequence of `buyMore` calls over a state. -/
def applyBuys (s : AppState) (id : String) (buys : List (ℚ × ℚ)) : AppState :=
  buys.foldl (fun st b => buyMore st id b.1 b.2) s

/-- Scenario A of the spec: `InitializeSession(10)` then
`OpenPosition("X", 1000, 2)`. -/
def scenarioA : AppState := addEntry (setStartingBalance 10) "X" 1000 2

/-- The single entry of `scenarioA`. -/
def scenarioAEntry : Entry :=
  { id := "1", name := "X", entryMarketCap := 1000, currentMarketCap := some 1000,
    solInvested := 2, status := Status.open_, cumulativeBuySOL := some 2,
    cumulativeSellAmount := some 0, cumulativeSellReturnedSOL := some 0,
    realizedPnl := some 0, sellMarketCap := none, solReturned := none,
    pnl := none, pnlPercent := none, soldAt := none }

/-- Scenario B of the spec: scenario A followed by `BuyMore(id, 2000, 2)`. -/
def scenarioB : AppState := buyMore scenarioA "1" 2000 2

/-- The single entry of `scenarioB`. -/
def scenarioBEntry : Entry :=
  { id := "1", name := "X", entryMarketCap := 1500, currentMarketCap := some 2000,
    solInvested := 4, status := Status.open_, cumulativeBuySOL := some 4,
    cumulativeSellAmount := some 0, cumulativeSellReturnedSOL := some 0,
    realizedPnl := some 0, sellMarketCap := none, solReturned := none,
    pnl := none, pnlPercent := none, soldAt := none }

/-- Scenario C of the spec: scenario B followed by `PartialSell(id, 3000, 4)`. -/
def scenarioC : AppState := partialSell scenarioB "1" 3000 4 "now"

/-- The single (closed) entry of `scenarioC`. -/
def scenarioCEntry : Entry :=
  { id := "1", name := "X", entryMarketCap := 1500, currentMarketCap := some 3000,
    solInvested := 0, status := Status.sold, cumulativeBuySOL := some 4,
    cumulativeSellAmount := some 4, cumulativeSellReturnedSOL := some 8,
    realizedPnl := some 4, sellMarketCap := some 3000, solReturned := some 8,
    pnl := some 4, pnlPercent := some 100, soldAt := some "now" }

/-! ### Helper lemmas about `modifyFirst` and `List.find?` -/

theorem modifyFirst_cons_pos {p : Entry → Bool} {f : Entry → Entry} {e : Entry}
    {es : List Entry} (h : p e = true) :
    modifyFirst p f (e :: es) = f e :: es := by
  simp [modifyFirst, h]

theorem modifyFirst_cons_neg {p : Entry → Bool} {f : Entry → Entry} {e : Entry}
    {es : List Entry} (h : p e = false) :
    modifyFirst p f (e :: es) = e :: modifyFirst p f es := by
  simp [modifyFirst, h]

theorem find?_modifyFirst {p : Entry → Bool} {f : Entry → Entry} {l : List Entry}
    {e : Entry} (h : l.find? p = some e) (hf : p (f e) = true) :
    (modifyFirst p f l).find? p = some (f e) := by
  induction l with
  | nil => simp at h
  | cons a l ih =>
    cases hpa : p a with
    | true =>
      rw [List.find?_cons_of_pos _ hpa] at h
      injection h with h
      subst h
      rw [modifyFirst_cons_pos hpa]
      exact List.find?_cons_of_pos _ hf
    | false =>
      rw [List.find?_cons_of_neg _ (by simp [hpa])] at h
      rw [modifyFirst_cons_neg hpa, List.find?_cons_of_neg _ (by simp [hpa])]
      exact ih h

theorem mem_modifyFirst {p : Entry → Bool} {f : Entry → Entry} {l : List Entry}
    {x : Entry} (h : x ∈ modifyFirst p f l) :
    x ∈ l ∨ ∃ y, y ∈ l ∧ p y = true ∧ x = f y := by
  induction l with
  | nil => simp [modifyFirst] at h
  | cons a l ih =>
    cases hpa : p a with
    | true =>
      rw [modifyFirst_cons_pos hpa] at h
      rcases List.mem_cons.mp h with h1 | h1
      · exact Or.inr ⟨a, List.mem_cons_self a l, hpa, h1⟩
      · exact Or.inl (List.mem_cons_of_mem _ h1)
    | false =>
      rw [modifyFirst_cons_neg hpa] at h
      rcases List.mem_cons.mp h with h1 | h1
      · exact Or.inl (h1 ▸ List.mem_cons_self a l)
      · rcases ih h1 with h2 | ⟨y, hy, hpy, hxy⟩
        · exact Or.inl (List.mem_cons_of_mem _ h2)
        · exact Or.inr ⟨y, List.mem_cons_of_mem _ hy, hpy, hxy⟩

/-! ### Concrete evaluation of the spec scenarios A, B, C -/

theorem scenarioA_eq :
    scenarioA = { startingBalance := some 10,
                  balance := 8, entries := [scenarioAEntry],
                  nextId := 2, history := none } := by
  have h1 : toString (1:ℕ) = "1" := by decide
  have h2 : trimStr "X" = "X" := by decide
  have h3 : ¬ (("X" : String) = "") := by decide
  norm_num [scenarioA, addEntry, setStartingBalance, scenarioAEntry, h1, h2, h3]

theorem scenarioB_eq :
    scenarioB = { startingBalance := some 10,
                  balance := 6, entries := [scenarioBEntry],
                  nextId := 2, history := none } := by
  have hbeq : (("1" : String) == "1") = true := by decide
  rw [scenarioB, scenarioA_eq]
  norm_num [buyMore, modifyFirst, scenarioAEntry, scenarioBEntry, List.find?, hbeq]

theorem scenarioC_eq :
    scenarioC = { startingBalance := some 10,
                  balance := 14, entries := [scenarioCEntry],
                  nextId := 2, history := none } := by
  have hbeq : (("1" : String) == "1") = true := by decide
  rw [scenarioC, scenarioB_eq]
  norm_num [partialSell, modifyFirst, scenarioBEntry, scenarioCEntry, List.find?,
    hbeq, closeEps]

/-- **C1, counterexample.** In the scenario
`InitializeSession(10); OpenPosition("X",1000,2); BuyMore(id,2000,2);
PartialSell(id,3000,4)` the code sets `finalPnlPercent` to `100`
(= finalPnl / cumulativeBought × 100 = 4/4 × 100), not `4/6 × 100 ≈ 66.67`
as the claim states: `cumulativeBought` is 4 (2 opening + 2 DCA), not 6. -/
theorem c1_counterexample :
    scenarioC.entries.map Entry.pnlPercent = [some 100] ∧
    ¬((4 : ℚ) / 6 * 100 = 100) := by
  constructor
  · rw [scenarioC_eq]
    simp [scenarioCEntry]
  · norm_num

/-- **C1, amended.** In the sequence `InitializeSession(10);
OpenPosition("X",1000,2); BuyMore(id,2000,2); PartialSell(id,3000,4)`:
after the BuyMore the average entry mark is 1500 and after the PartialSell
the multiplier is 3000/1500 = 2, the proceeds are 8
(`cumulativeSellReturnedSOL`), the realized gain is 4, the position is
closed with `solInvested = 0`, `finalPnl = 4`,
`finalPnlPercent = 4/4 × 100 = 100`, and the balance is 14. -/
theorem c1_scenario :
    scenarioB.balance = 6 ∧ scenarioB.entries = [scenarioBEntry] ∧
    scenarioBEntry.entryMarketCap = 1500 ∧
    scenarioC.balance = 14 ∧ scenarioC.entries = [scenarioCEntry] ∧
    scenarioCEntry.status = Status.sold ∧ scenarioCEntry.solInvested = 0 ∧
    scenarioCEntry.cumulativeSellReturnedSOL = some 8 ∧
    scenarioCEntry.realizedPnl = some 4 ∧ scenarioCEntry.pnl = some 4 ∧
    scenarioCEntry.pnlPercent = some 100 := by
  refine ⟨?_, ?_, rfl, ?_, ?_, rfl, rfl, rfl, rfl, rfl, rfl⟩
  · rw [scenarioB_eq]
  · rw [scenarioB_eq]
  · rw [scenarioC_eq]
  · rw [scenarioC_eq]

theorem scenarioA_find :
    scenarioA.entries.find? (fun x => x.id == "1") = some scenarioAEntry := by
  rw [scenarioA_eq]
  exact List.find?_cons_of_pos _ (by decide)

theorem scenarioB_find :
    scenarioB.entries.find? (fun x => x.id == "1") = some scenarioBEntry := by
  rw [scenarioB_eq]
  exact List.find?_cons_of_pos _ (by decide)

theorem scenarioC_find :
    scenarioC.entries.find? (fun x => x.id == "1") = some scenarioCEntry := by
  rw [scenarioC_eq]
  exact List.find?_cons_of_pos _ (by decide)

theorem scenarioA_find_none :
    scenarioA.entries.find? (fun x => x.id == "2") = none := by
  rw [scenarioA_eq]
  decide

/-- **C3, counterexample.** `scenarioC` holds a closed position whose
`currentMarketCap` is 3000; applying `updateCurrentMcap` (MarkPosition)
to it with mark 5000 changes the closed position's mark to 5000 — it is
neither rejected nor a no-op, refuting the claim. -/
theorem c3_counterexample :
    scenarioC.entries.map (fun e => (e.status, e.currentMarketCap)) =
      [(Status.sold, some 3000)] ∧
    (updateCurrentMcap scenarioC "1" 5000).entries.map
        (fun e => (e.status, e.currentMarketCap)) = [(Status.sold, some 5000)] := by
  constructor
  · rw [scenarioC_eq]
    simp [scenarioCEntry]
  · rw [scenarioC_eq]
    have hbeq : (("1" : String) == "1") = true := by decide
    norm_num [updateCurrentMcap, modifyFirst, scenarioCEntry, List.find?, hbeq]

/-- **C3, amended.** `MarkPosition(id, newMark)` on a missing id is a
no-op; on any found position — open or closed alike, since the engine has
no status check (the open-only restriction lives in the presentation
layer) — it sets `lastObservedMark = newMark` and changes nothing else:
balance, startingBalance, nextId, history and every other field of the
position are untouched. -/
theorem c3_mark_behavior (s : AppState) (id : String) (m : ℚ) :
    (s.entries.find? (fun e => e.id == id) = none → updateCurrentMcap s id m = s) ∧
    (∀ e, s.entries.find? (fun e => e.id == id) = some e →
      (updateCurrentMcap s id m).startingBalance = s.startingBalance ∧
      (updateCurrentMcap s id m).balance = s.balance ∧
      (updateCurrentMcap s id m).nextId = s.nextId ∧
      (updateCurrentMcap s id m).history = s.history ∧
      (updateCurrentMcap s id m).entries.find? (fun e => e.id == id) =
        some { e with currentMarketCap := some m }) := by
  constructor
  · intro h
    simp [updateCurrentMcap, h]
  · intro e h
    have hp := List.find?_some h
    refine ⟨?_, ?_, ?_, ?_, ?_⟩ <;> simp [updateCurrentMcap, h]
    exact find?_modifyFirst h hp

/-- Witness for `c3_mark_behavior` at the concrete closed position of
scenario C. -/
theorem c3_mark_behavior_witness :
    (updateCurrentMcap scenarioC "1" 5000).balance = scenarioC.balance ∧
    (updateCurrentMcap scenarioC "1" 5000).entries.find? (fun e => e.id == "1") =
      some { scenarioCEntry with currentMarketCap := some 5000 } := by
  have h := (c3_mark_behavior scenarioC "1" 5000).2 scenarioCEntry scenarioC_find
  exact ⟨h.2.1, h.2.2.2.2⟩

/-- **C10.** `ReviseOpenPosition` (editEntry) with a negative
`investedAmount` target always succeeds on an open position (the
delta is negative, so the insufficient-balance guard never fires), sets
`solInvested` to 0, and credits the balance with `solInvested - newValue`,
strictly more than the invested principal itself. -/
theorem c10_revise_negative (s : AppState) (id : String) (e : Entry) (v : ℚ)
    (hfind : s.entries.find? (fun x => x.id == id) = some e)
    (hopen : e.status = Status.open_) (hinv : 0 ≤ e.solInvested) (hv : v < 0) :
    (editEntry s id ⟨none, none, some v⟩).balance = s.balance + (e.solInvested - v) ∧
    s.balance + e.solInvested < (editEntry s id ⟨none, none, some v⟩).balance ∧
    (editEntry s id ⟨none, none, some v⟩).entries.find? (fun x => x.id == id) =
      some { e with solInvested := 0 } := by
  have hguard : ¬(0 < v - e.solInvested ∧ s.balance < v - e.solInvested) := by
    rintro ⟨h1, -⟩
    linarith
  have hlt : ¬ e.solInvested < v := not_lt.mpr (hv.le.trans hinv)
  have hmax : max (0:ℚ) v = 0 := max_eq_left (le_of_lt hv)
  have hp := List.find?_some hfind
  refine ⟨?_, ?_, ?_⟩
  · simp [editEntry, hfind, hopen, hguard, hlt]
    ring
  · simp [editEntry, hfind, hopen, hguard, hlt]
    linarith
  · simp [editEntry, hfind, hopen, hguard, hlt, hmax]
    exact find?_modifyFirst hfind hp

/-- Witness for `c10_revise_negative`: revising scenario A's open
position (2 SOL invested) to `-1` credits 3 SOL, more than the 2 SOL
principal. -/
theorem c10_revise_negative_witness :
    (editEntry scenarioA "1" ⟨none, none, some (-1)⟩).balance =
      scenarioA.balance + (scenarioAEntry.solInvested - (-1)) ∧
    scenarioA.balance + scenarioAEntry.solInvested <
      (editEntry scenarioA "1" ⟨none, none, some (-1)⟩).balance ∧
    (editEntry scenarioA "1" ⟨none, none, some (-1)⟩).entries.find?
        (fun x => x.id == "1") = some { scenarioAEntry with solInvested := 0 } :=
  c10_revise_negative scenarioA "1" scenarioAEntry (-1) scenarioA_find rfl
    (by norm_num [scenarioAEntry]) (by norm_num)

/-- **C4.** Cash conservation: a successful `addEntry` (OpenPosition)
or `buyMore` decreases the balance by exactly the buy amount, and a
successful `partialSell` increases it by exactly the proceeds
`sellAmount * sellMark / averageEntryMark`. -/
theorem c4_conservation :
    (∀ (s : AppState) (nm : String) (emc inv : ℚ), ¬ s.balance < inv →
      s.balance - (addEntry s nm emc inv).balance = inv) ∧
    (∀ (s : AppState) (id : String) (m a : ℚ) (e : Entry),
      s.entries.find? (fun x => x.id == id) = some e → e.status = Status.open_ →
      ¬ s.balance < a → s.balance - (buyMore s id m a).balance = a) ∧
    (∀ (s : AppState) (id : String) (m a : ℚ) (now : String) (e : Entry),
      s.entries.find? (fun x => x.id == id) = some e → e.status = Status.open_ →
      ¬ (a ≤ 0 ∨ e.solInvested < a) →
      (partialSell s id m a now).balance - s.balance = a * m / e.entryMarketCap) := by
  refine ⟨?_, ?_, ?_⟩
  · intro s nm emc inv h
    simp [addEntry, h]
  · intro s id m a e hfind hopen h
    simp [buyMore, hfind, hopen, h]
  · intro s id m a now e hfind hopen h
    simp [partialSell, hfind, hopen, h]
    ring

/-- Witness for `c4_conservation` at the concrete scenarios: the opening
buy of 2, the DCA buy of 2, and the sell of 4 at mark 3000 against basis
1500 (proceeds 8). -/
theorem c4_conservation_witness :
    (setStartingBalance 10).balance - scenarioA.balance = 2 ∧
    scenarioA.balance - scenarioB.balance = 2 ∧
    scenarioC.balance - scenarioB.balance = 4 * 3000 / scenarioBEntry.entryMarketCap := by
  refine ⟨?_, ?_, ?_⟩
  · exact c4_conservation.1 (setStartingBalance 10) "X" 1000 2 (by norm_num [setStartingBalance])
  · exact c4_conservation.2.1 scenarioA "1" 2000 2 scenarioAEntry scenarioA_find rfl
      (by rw [scenarioA_eq]; norm_num)
  · exact c4_conservation.2.2 scenarioB "1" 3000 4 "now" scenarioBEntry scenarioB_find rfl
      (by norm_num [scenarioBEntry])

/-- **C6.** Atomicity of rejections: whenever an operation's guard fires
— insufficient balance on open/buy/edit-increase, invalid sell amount,
negative resulting balance, missing id, or a closed position — the
operation returns the state exactly unchanged. -/
theorem c6_atomic_rejection :
    (∀ (s : AppState) (nm : String) (emc inv : ℚ),
      s.balance < inv → addEntry s nm emc inv = s) ∧
    (∀ (s : AppState) (id : String) (m : ℚ),
      s.entries.find? (fun e => e.id == id) = none → updateCurrentMcap s id m = s) ∧
    (∀ (s : AppState) (id : String) (u : EntryUpdates),
      s.entries.find? (fun e => e.id == id) = none → editEntry s id u = s) ∧
    (∀ (s : AppState) (id : String) (u : EntryUpdates) (e : Entry),
      s.entries.find? (fun e => e.id == id) = some e →
      e.status ≠ Status.open_ → editEntry s id u = s) ∧
    (∀ (s : AppState) (id : String) (u : EntryUpdates) (e : Entry) (v : ℚ),
      s.entries.find? (fun e => e.id == id) = some e → e.status = Status.open_ →
      u.solInvested = some v → 0 < v - e.solInvested → s.balance < v - e.solInvested →
      editEntry s id u = s) ∧
    (∀ (s : AppState) (id : String) (m a : ℚ),
      s.entries.find? (fun e => e.id == id) = none → buyMore s id m a = s) ∧
    (∀ (s : AppState) (id : String) (m a : ℚ) (e : Entry),
      s.entries.find? (fun e => e.id == id) = some e →
      e.status ≠ Status.open_ → buyMore s id m a = s) ∧
    (∀ (s : AppState) (id : String) (m a : ℚ) (e : Entry),
      s.entries.find? (fun e => e.id == id) = some e → e.status = Status.open_ →
      s.balance < a → buyMore s id m a = s) ∧
    (∀ (s : AppState) (id : String) (m a : ℚ) (now : String),
      s.entries.find? (fun e => e.id == id) = none → partialSell s id m a now = s) ∧
    (∀ (s : AppState) (id : String) (m a : ℚ) (now : String) (e : Entry),
      s.entries.find? (fun e => e.id == id) = some e →
      e.status ≠ Status.open_ → partialSell s id m a now = s) ∧
    (∀ (s : AppState) (id : String) (m a : ℚ) (now : String) (e : Entry),
      s.entries.find? (fun e => e.id == id) = some e → e.status = Status.open_ →
      (a ≤ 0 ∨ e.solInvested < a) → partialSell s id m a now = s) ∧
    (∀ (s : AppState) (d : ℚ), s.balance + d < 0 → adjustBalance s d = s) := by
  refine ⟨?_, ?_, ?_, ?_, ?_, ?_, ?_, ?_, ?_, ?_, ?_, ?_⟩
  · intro s nm emc inv h
    simp [addEntry, h]
  · intro s id m h
    simp [updateCurrentMcap, h]
  · intro s id u h
    simp [editEntry, h]
  · intro s id u e hfind hsold
    simp [editEntry, hfind, hsold]
  · intro s id u e v hfind hopen husol hd hb
    have hd2 : e.solInvested < v := by linarith
    simp [editEntry, hfind, hopen, husol, hd, hb, hd2]
  · intro s id m a h
    simp [buyMore, h]
  · intro s id m a e hfind hsold
    simp [buyMore, hfind, hsold]
  · intro s id m a e hfind hopen h
    simp [buyMore, hfind, hopen, h]
  · intro s id m a now h
    simp [partialSell, h]
  · intro s id m a now e hfind hsold
    simp [partialSell, hfind, hsold]
  · intro s id m a now e hfind hopen h
    simp [partialSell, hfind, hopen, h]
  · intro s d h
    simp [adjustBalance, h]

/-- Witness for `c6_atomic_rejection`: each rejection kind exercised at a
concrete state — overdrawn open and buy, missing id, closed position,
overdrawn edit-increase, oversized sell, and negative balance adjust. -/
theorem c6_atomic_rejection_witness :
    addEntry scenarioA "Y" 1000 100 = scenarioA ∧
    updateCurrentMcap scenarioA "2" 5 = scenarioA ∧
    editEntry scenarioA "2" ⟨none, none, none⟩ = scenarioA ∧
    editEntry scenarioC "1" ⟨none, none, some 1⟩ = scenarioC ∧
    editEntry scenarioA "1" ⟨none, none, some 100⟩ = scenarioA ∧
    buyMore scenarioA "2" 5 1 = scenarioA ∧
    buyMore scenarioC "1" 5 1 = scenarioC ∧
    buyMore scenarioA "1" 5 100 = scenarioA ∧
    partialSell scenarioA "2" 5 1 "now" = scenarioA ∧
    partialSell scenarioC "1" 5 1 "now" = scenarioC ∧
    partialSell scenarioB "1" 5 100 "now" = scenarioB ∧
    adjustBalance scenarioA (-100) = scenarioA := by
  have hCfindNone : scenarioC.entries.find? (fun x => x.id == "2") = none := by
    rw [scenarioC_eq]
    decide
  refine ⟨?_, ?_, ?_, ?_, ?_, ?_, ?_, ?_, ?_, ?_, ?_, ?_⟩
  · exact c6_atomic_rejection.1 scenarioA "Y" 1000 100 (by rw [scenarioA_eq]; norm_num)
  · exact c6_atomic_rejection.2.1 scenarioA "2" 5 scenarioA_find_none
  · exact c6_atomic_rejection.2.2.1 scenarioA "2" ⟨none, none, none⟩ scenarioA_find_none
  · exact c6_atomic_rejection.2.2.2.1 scenarioC "1" ⟨none, none, some 1⟩ scenarioCEntry
      scenarioC_find (by decide)
  · exact c6_atomic_rejection.2.2.2.2.1 scenarioA "1" ⟨none, none, some 100⟩ scenarioAEntry
      100 scenarioA_find rfl rfl (by norm_num [scenarioAEntry])
      (by rw [scenarioA_eq]; norm_num [scenarioAEntry])
  · exact c6_atomic_rejection.2.2.2.2.2.1 scenarioA "2" 5 1 scenarioA_find_none
  · exact c6_atomic_rejection.2.2.2.2.2.2.1 scenarioC "1" 5 1 scenarioCEntry
      scenarioC_find (by decide)
  · exact c6_atomic_rejection.2.2.2.2.2.2.2.1 scenarioA "1" 5 100 scenarioAEntry
      scenarioA_find rfl (by rw [scenarioA_eq]; norm_num)
  · exact c6_atomic_rejection.2.2.2.2.2.2.2.2.1 scenarioA "2" 5 1 "now" scenarioA_find_none
  · exact c6_atomic_rejection.2.2.2.2.2.2.2.2.2.1 scenarioC "1" 5 1 "now" scenarioCEntry
      scenarioC_find (by decide)
  · exact c6_atomic_rejection.2.2.2.2.2.2.2.2.2.2.1 scenarioB "1" 5 100 "now" scenarioBEntry
      scenarioB_find rfl (Or.inr (by norm_num [scenarioBEntry]))
  · exact c6_atomic_rejection.2.2.2.2.2.2.2.2.2.2.2 scenarioA (-100)
      (by rw [scenarioA_eq]; norm_num)

/-! ### Preservation of `ValidState` by every engine operation -/

theorem entriesOK_modifyFirst {p : Entry → Bool} {f : Entry → Entry} {l : List Entry}
    {x : Entry} (hx : x ∈ modifyFirst p f l) (hl : ∀ x ∈ l, EntryOK x)
    (hf : ∀ y ∈ l, p y = true → EntryOK (f y)) : EntryOK x := by
  rcases mem_modifyFirst hx with h | ⟨y, hy, hpy, rfl⟩
  · exact hl x h
  · exact hf y hy hpy

theorem valid_setStartingBalance {n : ℚ} (h : 0 ≤ n) :
    ValidState (setStartingBalance n) := by
  simpa [ValidState, setStartingBalance] using h

theorem valid_resetAll : ValidState resetAll := by
  simp [ValidState, resetAll]

theorem valid_addEntry (s : AppState) (nm : String) (emc inv : ℚ)
    (hs : ValidState s) (h1 : 0 < emc) (h2 : 0 < inv) :
    ValidState (addEntry s nm emc inv) := by
  by_cases hb : s.balance < inv
  · simpa [addEntry, hb] using hs
  · have hble : inv ≤ s.balance := not_lt.mp hb
    refine ⟨?_, ?_⟩
    · simp [addEntry, hb]
      linarith [hs.1]
    · intro e he
      simp [addEntry, hb] at he
      rcases he with rfl | he
      · exact ⟨h1, le_of_lt h2, fun hst => absurd hst (by simp)⟩
      · exact hs.2 e he

theorem valid_updateCurrentMcap (s : AppState) (id : String) (m : ℚ)
    (hs : ValidState s) : ValidState (updateCurrentMcap s id m) := by
  cases hfind : s.entries.find? (fun e => e.id == id) with
  | none => simpa [updateCurrentMcap, hfind] using hs
  | some e =>
    refine ⟨by simpa [updateCurrentMcap, hfind] using hs.1, ?_⟩
    intro x hx
    simp only [updateCurrentMcap, hfind] at hx
    exact entriesOK_modifyFirst hx hs.2 (fun y hy _ => hs.2 y hy)

theorem valid_editEntry (s : AppState) (id : String) (u : EntryUpdates)
    (hs : ValidState s) : ValidState (editEntry s id u) := by
  cases hfind : s.entries.find? (fun e => e.id == id) with
  | none => simpa [editEntry, hfind] using hs
  | some e =>
    by_cases hopen : e.status = Status.open_
    · obtain ⟨hemc, hinv, hsold⟩ := hs.2 e (List.mem_of_find?_eq_some hfind)
      obtain ⟨un, um, usol⟩ := u
      rcases usol with _ | v
      · refine ⟨by simpa [editEntry, hfind, hopen] using hs.1, ?_⟩
        intro x hx
        rcases un with _ | nm <;> rcases um with _ | m2
        · simp only [editEntry, hfind] at hx
          rw [if_neg (by simp [hopen])] at hx
          exact entriesOK_modifyFirst hx hs.2 (fun y hy _ => ⟨hemc, hinv, hsold⟩)
        · by_cases hm2 : 0 < m2
          · simp only [editEntry, hfind, hm2, if_true] at hx
            rw [if_neg (by simp [hopen])] at hx
            exact entriesOK_modifyFirst hx hs.2 (fun y hy _ => by
              refine ⟨?_, ?_, ?_⟩ <;> simp [hm2, hopen, hemc, hinv])
          · simp only [editEntry, hfind, hm2, if_false] at hx
            rw [if_neg (by simp [hopen])] at hx
            exact entriesOK_modifyFirst hx hs.2 (fun y hy _ => by
              refine ⟨?_, ?_, ?_⟩ <;> simp [hm2, hopen, hemc, hinv])
        · simp only [editEntry, hfind] at hx
          rw [if_neg (by simp [hopen])] at hx
          exact entriesOK_modifyFirst hx hs.2 (fun y hy _ => by
            refine ⟨?_, ?_, ?_⟩ <;> simp [hopen, hemc, hinv])
        · by_cases hm2 : 0 < m2
          · simp only [editEntry, hfind, hm2, if_true] at hx
            rw [if_neg (by simp [hopen])] at hx
            exact entriesOK_modifyFirst hx hs.2 (fun y hy _ => by
              refine ⟨?_, ?_, ?_⟩ <;> simp [hm2, hopen, hemc, hinv])
          · simp only [editEntry, hfind, hm2, if_false] at hx
            rw [if_neg (by simp [hopen])] at hx
            exact entriesOK_modifyFirst hx hs.2 (fun y hy _ => by
              refine ⟨?_, ?_, ?_⟩ <;> simp [hm2, hopen, hemc, hinv])
      · by_cases hg : 0 < v - e.solInvested ∧ s.balance < v - e.solInvested
        · simp only [editEntry, hfind]
          rw [if_neg (by simp [hopen]), if_pos hg]
          exact hs
        · have hbal' : 0 ≤ s.balance - (v - e.solInvested) := by
            rcases not_and_or.mp hg with h | h
            · have := not_lt.mp h
              linarith [hs.1]
            · have := not_lt.mp h
              linarith [hs.1]
          refine ⟨?_, ?_⟩
          · simp only [editEntry, hfind]
            rw [if_neg (by simp [hopen]), if_neg hg]
            exact hbal'
          · intro x hx
            simp only [editEntry, hfind] at hx
            rw [if_neg (by simp [hopen]), if_neg hg] at hx
            simp only [AppState.entries] at hx
            rcases un with _ | nm <;> rcases um with _ | m2
            · exact entriesOK_modifyFirst hx hs.2 (fun y hy _ => by
                refine ⟨?_, ?_, ?_⟩ <;> simp [hopen, hemc, hinv, le_max_left])
            · by_cases hm2 : 0 < m2
              · simp only [hm2, if_true] at hx
                exact entriesOK_modifyFirst hx hs.2 (fun y hy _ => by
                  refine ⟨?_, ?_, ?_⟩ <;> simp [hm2, hopen, hemc, hinv, le_max_left])
              · simp only [hm2, if_false] at hx
                exact entriesOK_modifyFirst hx hs.2 (fun y hy _ => by
                  refine ⟨?_, ?_, ?_⟩ <;> simp [hm2, hopen, hemc, hinv, le_max_left])
            · exact entriesOK_modifyFirst hx hs.2 (fun y hy _ => by
                refine ⟨?_, ?_, ?_⟩ <;> simp [hopen, hemc, hinv, le_max_left])
            · by_cases hm2 : 0 < m2
              · simp only [hm2, if_true] at hx
                exact entriesOK_modifyFirst hx hs.2 (fun y hy _ => by
                  refine ⟨?_, ?_, ?_⟩ <;> simp [hm2, hopen, hemc, hinv, le_max_left])
              · simp only [hm2, if_false] at hx
                exact entriesOK_modifyFirst hx hs.2 (fun y hy _ => by
                  refine ⟨?_, ?_, ?_⟩ <;> simp [hm2, hopen, hemc, hinv, le_max_left])
    · simpa [editEntry, hfind, hopen] using hs

theorem valid_buyMore (s : AppState) (id : String) (m a : ℚ)
    (hs : ValidState s) (hm : 0 < m) (ha : 0 < a) :
    ValidState (buyMore s id m a) := by
  cases hfind : s.entries.find? (fun e => e.id == id) with
  | none => simpa [buyMore, hfind] using hs
  | some e =>
    by_cases hopen : e.status = Status.open_
    · by_cases hb : s.balance < a
      · simpa [buyMore, hfind, hopen, hb] using hs
      · obtain ⟨hemc, hinv, -⟩ := hs.2 e (List.mem_of_find?_eq_some hfind)
        refine ⟨?_, ?_⟩
        · simp [buyMore, hfind, hopen, hb]
          linarith [hs.1, not_lt.mp hb]
        · intro x hx
          simp only [buyMore, hfind] at hx
          rw [if_neg (by simp [hopen]), if_neg hb] at hx
          refine entriesOK_modifyFirst hx hs.2 (fun y hy _ => ?_)
          refine ⟨?_, by linarith, fun hst => absurd hst (by simp [hopen])⟩
          have hnum : 0 < e.entryMarketCap * e.solInvested + m * a := by
            have := mul_nonneg hemc.le hinv
            have := mul_pos hm ha
            linarith
          exact div_pos hnum (by linarith)
    · simpa [buyMore, hfind, hopen] using hs

theorem valid_partialSell (s : AppState) (id : String) (m a : ℚ) (now : String)
    (hs : ValidState s) (hm : 0 < m) :
    ValidState (partialSell s id m a now) := by
  cases hfind : s.entries.find? (fun e => e.id == id) with
  | none => simpa [partialSell, hfind] using hs
  | some e =>
    by_cases hopen : e.status = Status.open_
    · by_cases hv : a ≤ 0 ∨ e.solInvested < a
      · simpa [partialSell, hfind, hopen, hv] using hs
      · obtain ⟨hemc, hinv, -⟩ := hs.2 e (List.mem_of_find?_eq_some hfind)
        have ha : 0 < a := not_le.mp (fun h => hv (Or.inl h))
        have hale : a ≤ e.solInvested := not_lt.mp (fun h => hv (Or.inr h))
        have hret : 0 < a * (m / e.entryMarketCap) :=
          mul_pos ha (div_pos hm hemc)
        refine ⟨?_, ?_⟩
        · simp [partialSell, hfind, hopen, hv]
          linarith [hs.1]
        · intro x hx
          simp only [partialSell, hfind] at hx
          rw [if_neg (by simp [hopen]), if_neg hv] at hx
          refine entriesOK_modifyFirst hx hs.2 (fun y hy _ => ?_)
          by_cases hrem : e.solInvested - a ≤ closeEps
          · simp only [hrem, if_true]
            exact ⟨hemc, le_refl 0, fun _ => rfl⟩
          · simp only [hrem, if_false]
            exact ⟨hemc, by linarith, fun hst => absurd hst (by simp [hopen])⟩
    · simpa [partialSell, hfind, hopen] using hs

theorem valid_adjustBalance (s : AppState) (d : ℚ) (hs : ValidState s) :
    ValidState (adjustBalance s d) := by
  by_cases h : s.balance + d < 0
  · simpa [adjustBalance, h] using hs
  · exact ⟨by simpa [adjustBalance, h] using not_lt.mp h,
      by intro x hx; simp [adjustBalance, h] at hx; exact hs.2 x hx⟩

theorem valid_pushHistoryPoint (s : AppState) (t : ℤ) (hs : ValidState s) :
    ValidState (pushHistoryPoint s t) := by
  simp only [pushHistoryPoint]
  cases hlast : (s.history.getD []).getLast? with
  | none => exact ⟨hs.1, hs.2⟩
  | some last =>
    by_cases hcond : |last.balance - s.balance| < histEps ∧
        |last.openValue - openValueOf s| < histEps
    · simpa [hcond] using hs
    · simp only [hcond, if_false]
      exact ⟨hs.1, hs.2⟩

/-- Every reachable state satisfies the ledger invariant. -/
theorem reachable_valid {s : AppState} (h : Reachable s) : ValidState s := by
  induction h with
  | init n hn => exact valid_setStartingBalance hn.le
  | reset => exact valid_resetAll
  | add s nm emc inv hr h1 h2 ih => exact valid_addEntry s nm emc inv ih h1 h2
  | mark s id m hr hm ih => exact valid_updateCurrentMcap s id m ih
  | edit s id u hr ih => exact valid_editEntry s id u ih
  | buy s id m a hr h1 h2 ih => exact valid_buyMore s id m a ih h1 h2
  | sell s id m a now hr h1 h2 ih => exact valid_partialSell s id m a now ih h1
  | adjust s d hr ih => exact valid_adjustBalance s d ih
  | push s t hr ih => exact valid_pushHistoryPoint s t ih

/-- Scenario C is reachable through the engine operations. -/
theorem reachable_scenarioC : Reachable scenarioC :=
  Reachable.sell _ "1" 3000 4 "now"
    (Reachable.buy _ "1" 2000 2
      (Reachable.add _ "X" 1000 2
        (Reachable.init 10 (by norm_num)) (by norm_num) (by norm_num))
      (by norm_num) (by norm_num))
    (by norm_num) (by norm_num)

/-- **C7.** `balance >= 0` holds in every state reachable through the
engine's public operations with boundary-validated arguments. -/
theorem c7_balance_nonneg (s : AppState) (h : Reachable s) : 0 ≤ s.balance :=
  (reachable_valid h).1

/-- Witness for `c7_balance_nonneg` at the reachable scenario-C state. -/
theorem c7_balance_nonneg_witness : 0 ≤ scenarioC.balance :=
  c7_balance_nonneg scenarioC reachable_scenarioC

/-- **C2, counterexample.** The reachable state obtained by
`InitializeSession(10); OpenPosition("X",1000,2);
ReviseOpenPosition(id, investedAmount := 0)` contains a position with
`status = open` and `investedAmount = 0`: the claimed iff fails in the
open-with-zero direction. -/
theorem c2_counterexample :
    Reachable (editEntry scenarioA "1" ⟨none, none, some 0⟩) ∧
    (editEntry scenarioA "1" ⟨none, none, some 0⟩).entries.map
      (fun e => (e.status, e.solInvested)) = [(Status.open_, 0)] := by
  constructor
  · exact Reachable.edit _ "1" ⟨none, none, some 0⟩
      (Reachable.add _ "X" 1000 2
        (Reachable.init 10 (by norm_num)) (by norm_num) (by norm_num))
  · have hbeq : (("1" : String) == "1") = true := by decide
    rw [scenarioA_eq]
    norm_num [editEntry, modifyFirst, scenarioAEntry, List.find?, hbeq]

/-- **C2, amended.** In every reachable state, every closed position has
`investedAmount = 0` (closure forces it to exactly 0); the converse
direction of the claimed iff is false, since `ReviseOpenPosition` can set
an open position's `investedAmount` to 0 without closing it. -/
theorem c2_closed_zero (s : AppState) (h : Reachable s) :
    ∀ e ∈ s.entries, e.status = Status.sold → e.solInvested = 0 :=
  fun e he hst => ((reachable_valid h).2 e he).2.2 hst

/-- Witness for `c2_closed_zero` at the closed position of scenario C. -/
theorem c2_closed_zero_witness : scenarioCEntry.solInvested = 0 :=
  c2_closed_zero scenarioC reachable_scenarioC scenarioCEntry
    (by rw [scenarioC_eq]; simp) rfl

/-! ### The snapshot recorder -/

theorem openValueOf_set_history (s : AppState) (h : Option (List HistoryPoint)) :
    openValueOf { s with history := h } = openValueOf s := rfl

/-- **C8.** `RecordIfChanged` (pushHistoryPoint) appends at most one point,
and a second consecutive call with no intervening change to balance or
entries is a strict no-op: the new point's `(balance, openValue)` is within
the `1e-9` tolerance (indeed equal) of the last appended point, so nothing
is appended. -/
theorem c8_push_idempotent (s : AppState) (t t2 : ℤ) :
    ((pushHistoryPoint s t).history.getD []).length ≤
      (s.history.getD []).length + 1 ∧
    pushHistoryPoint (pushHistoryPoint s t) t2 = pushHistoryPoint s t := by
  constructor
  · simp only [pushHistoryPoint]
    cases hlast : (s.history.getD []).getLast? with
    | none => simp
    | some last =>
      by_cases hc : |last.balance - s.balance| < histEps ∧
          |last.openValue - openValueOf s| < histEps
      · simp [hc]
      · simp [hc]
  · cases hlast : (s.history.getD []).getLast? with
    | none =>
      have h1 : pushHistoryPoint s t = { s with history := some (s.history.getD [] ++ [{ t := t, balance := s.balance, openValue := openValueOf s }]) } := by
        simp [pushHistoryPoint, hlast]
      rw [h1]
      norm_num [pushHistoryPoint, openValueOf_set_history, histEps]
    | some last =>
      by_cases hc : |last.balance - s.balance| < histEps ∧
          |last.openValue - openValueOf s| < histEps
      · have h1 : pushHistoryPoint s t = s := by
          simp [pushHistoryPoint, hlast, hc]
        rw [h1]
        simp [pushHistoryPoint, hlast, hc]
      · have h1 : pushHistoryPoint s t = { s with history := some (s.history.getD [] ++ [{ t := t, balance := s.balance, openValue := openValueOf s }]) } := by
          simp [pushHistoryPoint, hlast, hc]
        rw [h1]
        norm_num [pushHistoryPoint, openValueOf_set_history, histEps]

/-! ### The persistence adapter's load contract -/

/-- **C9.** `loadState` is total over every stored input: missing,
unparsable, or structurally malformed inputs (balance not a number or
entries not an array) yield the canonical uninitialized state, and a
well-formed input without a history field loads with history defaulted to
the empty list. -/
theorem c9_load_total :
    loadState StoredInput.missing = defaultState ∧
    loadState StoredInput.malformed = defaultState ∧
    (∀ r : RawState, r.balance = none ∨ r.entries = none →
      loadState (StoredInput.parsed r) = defaultState) ∧
    (∀ (r : RawState) (b : ℚ) (es : List Entry),
      r.balance = some b → r.entries = some es → r.history = none →
      loadState (StoredInput.parsed r) =
        { startingBalance := r.startingBalance, balance := b, entries := es,
          nextId := r.nextId.getD 1, history := some [] }) := by
  refine ⟨rfl, rfl, ?_, ?_⟩
  · intro r h
    obtain ⟨sb, bal, es, nid, hist⟩ := r
    rcases h with h | h
    · cases h
      rfl
    · cases h
      cases bal <;> rfl
  · intro r b es hb he hh
    obtain ⟨sb, bal, es2, nid, hist⟩ := r
    cases hb
    cases he
    cases hh
    rfl

/-- Witness for `c9_load_total`: a stored object whose entries field is
not an array collapses to the default state, and a well-formed stored
object without a history field loads with empty history. -/
theorem c9_load_total_witness :
    loadState (StoredInput.parsed ⟨some 5, none, some [], some 7, none⟩) =
      defaultState ∧
    loadState (StoredInput.parsed ⟨some 5, some 3, some [], none, none⟩) =
      { startingBalance := some 5, balance := 3, entries := [], nextId := 1,
        history := some [] } := by
  constructor
  · exact c9_load_total.2.2.1 ⟨some 5, none, some [], some 7, none⟩ (Or.inl rfl)
  · exact c9_load_total.2.2.2 ⟨some 5, some 3, some [], none, none⟩ 3 [] rfl rfl rfl

/-! ### Weighted-average cost basis under DCA buy sequences -/

theorem asum_nil : asum [] = 0 := rfl

theorem asum_cons (b : ℚ × ℚ) (l : List (ℚ × ℚ)) : asum (b :: l) = b.2 + asum l := by
  simp [asum]

theorem wsum_nil : wsum [] = 0 := rfl

theorem wsum_cons (b : ℚ × ℚ) (l : List (ℚ × ℚ)) :
    wsum (b :: l) = b.1 * b.2 + wsum l := by
  simp [wsum]

theorem asum_nonneg {l : List (ℚ × ℚ)} (h : ∀ b ∈ l, 0 < b.2) : 0 ≤ asum l := by
  induction l with
  | nil => simp [asum]
  | cons b bs ih =>
    rw [asum_cons]
    have h1 := h b (List.mem_cons_self b bs)
    have h2 := ih (fun x hx => h x (List.mem_cons_of_mem _ hx))
    linarith

theorem wsum_lower_bound {l : List (ℚ × ℚ)} (c : ℚ)
    (h : ∀ b ∈ l, 0 < b.2) (hc : ∀ b ∈ l, c ≤ b.1) : c * asum l ≤ wsum l := by
  induction l with
  | nil => simp [asum, wsum]
  | cons b bs ih =>
    rw [asum_cons, wsum_cons]
    have h1 := h b (List.mem_cons_self b bs)
    have h2 := hc b (List.mem_cons_self b bs)
    have h3 := ih (fun x hx => h x (List.mem_cons_of_mem _ hx))
      (fun x hx => hc x (List.mem_cons_of_mem _ hx))
    have h4 : c * b.2 ≤ b.1 * b.2 := mul_le_mul_of_nonneg_right h2 h1.le
    have h5 : c * (b.2 + asum bs) = c * b.2 + c * asum bs := by ring
    linarith

theorem wsum_upper_bound {l : List (ℚ × ℚ)} (C : ℚ)
    (h : ∀ b ∈ l, 0 < b.2) (hC : ∀ b ∈ l, b.1 ≤ C) : wsum l ≤ C * asum l := by
  induction l with
  | nil => simp [asum, wsum]
  | cons b bs ih =>
    rw [asum_cons, wsum_cons]
    have h1 := h b (List.mem_cons_self b bs)
    have h2 := hC b (List.mem_cons_self b bs)
    have h3 := ih (fun x hx => h x (List.mem_cons_of_mem _ hx))
      (fun x hx => hC x (List.mem_cons_of_mem _ hx))
    have h4 : b.1 * b.2 ≤ C * b.2 := mul_le_mul_of_nonneg_right h2 h1.le
    have h5 : C * (b.2 + asum bs) = C * b.2 + C * asum bs := by ring
    linarith

/-- One `buyMore` sequence over a position sitting at the head of the
entries list: the survivor keeps its id, stays open, accumulates
`asum buys` principal, and its basis-times-principal accumulates
`wsum buys`; the balance drops by `asum buys`. -/
theorem applyBuys_spec (id : String) (buys : List (ℚ × ℚ)) :
    ∀ (e : Entry) (rest : List Entry) (s : AppState),
    s.entries = e :: rest → (e.id == id) = true → e.status = Status.open_ →
    0 < e.solInvested →
    (∀ b ∈ buys, 0 < b.1 ∧ 0 < b.2) →
    asum buys ≤ s.balance →
    ∃ e2, (applyBuys s id buys).entries = e2 :: rest ∧
      e2.id = e.id ∧ e2.status = Status.open_ ∧
      e2.solInvested = e.solInvested + asum buys ∧
      e2.entryMarketCap * e2.solInvested =
        e.entryMarketCap * e.solInvested + wsum buys ∧
      (applyBuys s id buys).balance = s.balance - asum buys := by
  induction buys with
  | nil =>
    intro e rest s hs hid hopen hinv hb hbal
    exact ⟨e, by simpa [applyBuys] using hs, rfl, hopen, by simp [asum],
      by simp [wsum], by simp [applyBuys, asum]⟩
  | cons b bs ih =>
    intro e rest s hs hid hopen hinv hb hbal
    obtain ⟨m, a⟩ := b
    have hma := hb (m, a) (List.mem_cons_self _ _)
    have hbs : ∀ x ∈ bs, 0 < x.1 ∧ 0 < x.2 :=
      fun x hx => hb x (List.mem_cons_of_mem _ hx)
    have hasbs : 0 ≤ asum bs := asum_nonneg (fun x hx => (hbs x hx).2)
    have hacons : asum ((m, a) :: bs) = a + asum bs := asum_cons _ _
    have hnotlt : ¬ s.balance < a := by
      rw [hacons] at hbal
      exact not_lt.mpr (by linarith)
    have hfind : s.entries.find? (fun x => x.id == id) = some e := by
      rw [hs]
      exact List.find?_cons_of_pos _ hid
    have hstep : buyMore s id m a = { s with balance := s.balance - a, entries := { e with entryMarketCap := (e.entryMarketCap * e.solInvested + m * a) / (e.solInvested + a), currentMarketCap := some m, solInvested := e.solInvested + a, cumulativeBuySOL := some ((e.cumulativeBuySOL.getD 0) + a) } :: rest } := by
      simp only [buyMore, hfind]
      rw [if_neg (by simp [hopen]), if_neg hnotlt, hs, modifyFirst_cons_pos hid]
    have happly : applyBuys s id ((m, a) :: bs) = applyBuys (buyMore s id m a) id bs := by
      simp [applyBuys]
    have hstepinv : (0:ℚ) < e.solInvested + a := by linarith [hma.2]
    obtain ⟨e2, h1, h2, h3, h4, h5, h6⟩ :=
      ih { e with entryMarketCap := (e.entryMarketCap * e.solInvested + m * a) / (e.solInvested + a), currentMarketCap := some m, solInvested := e.solInvested + a, cumulativeBuySOL := some ((e.cumulativeBuySOL.getD 0) + a) }
        rest (buyMore s id m a) (by rw [hstep]) (by simpa using hid)
        (by simpa using hopen) (by simpa using hstepinv) hbs
        (by rw [hstep]; simp only; rw [hacons] at hbal; linarith)
    refine ⟨e2, by rw [happly]; exact h1, by simpa using h2, h3, ?_, ?_, ?_⟩
    · rw [h4, hacons]
      simp only
      ring
    · rw [h5, wsum_cons]
      have hcancel : (e.entryMarketCap * e.solInvested + m * a) / (e.solInvested + a) * (e.solInvested + a) = e.entryMarketCap * e.solInvested + m * a :=
        div_mul_cancel₀ _ (ne_of_gt hstepinv)
      simp only
      rw [hcancel]
      ring
    · rw [happly] at *
      rw [h6, hstep]
      simp only
      rw [hacons]
      ring

/-- **C5.** Opening a position with `(m0, a0)` and applying any sequence
of valid DCA buys makes `averageEntryMark` equal the capital-weighted
average `wsum / asum` over all buys including the opening one, and hence
it lies between every lower and upper bound of the marks used. Since the
buy list is universally quantified, this holds after each call of any
`BuyMore` sequence (instantiate with each prefix). -/
theorem c5_weighted_average (s : AppState) (nm : String) (m0 a0 : ℚ)
    (buys : List (ℚ × ℚ)) (hm0 : 0 < m0) (ha0 : 0 < a0)
    (hb : ∀ b ∈ buys, 0 < b.1 ∧ 0 < b.2)
    (hbal : a0 + asum buys ≤ s.balance) :
    ∃ e2 rest,
      (applyBuys (addEntry s nm m0 a0) (toString s.nextId) buys).entries =
        e2 :: rest ∧
      e2.entryMarketCap = wsum ((m0, a0) :: buys) / asum ((m0, a0) :: buys) ∧
      (∀ c, (∀ b ∈ (m0, a0) :: buys, c ≤ b.1) → c ≤ e2.entryMarketCap) ∧
      (∀ C, (∀ b ∈ (m0, a0) :: buys, b.1 ≤ C) → e2.entryMarketCap ≤ C) := by
  have hasb : 0 ≤ asum buys := asum_nonneg (fun x hx => (hb x hx).2)
  have hnotlt : ¬ s.balance < a0 := not_lt.mpr (by linarith)
  have hentries : (addEntry s nm m0 a0).entries = { id := toString s.nextId, name := if trimStr nm = "" then "Entry #" ++ toString s.nextId else trimStr nm, entryMarketCap := m0, currentMarketCap := some m0, solInvested := a0, status := Status.open_, cumulativeBuySOL := some a0, cumulativeSellAmount := some 0, cumulativeSellReturnedSOL := some 0, realizedPnl := some 0, sellMarketCap := none, solReturned := none, pnl := none, pnlPercent := none, soldAt := none } :: s.entries := by
    simp [addEntry, hnotlt]
  have hbalance : (addEntry s nm m0 a0).balance = s.balance - a0 := by
    simp [addEntry, hnotlt]
  obtain ⟨e2, h1, h2, h3, h4, h5, h6⟩ :=
    applyBuys_spec (toString s.nextId) buys _ s.entries (addEntry s nm m0 a0)
      hentries (by simp) rfl ha0 hb (by rw [hbalance]; linarith)
  have htot : (0:ℚ) < a0 + asum buys := by linarith
  have hinv2 : e2.solInvested = a0 + asum buys := by
    rw [h4]
  have hprod : e2.entryMarketCap * e2.solInvested = m0 * a0 + wsum buys := by
    rw [h5]
  have hallpos : ∀ b ∈ (m0, a0) :: buys, 0 < b.2 := by
    intro b hbmem
    rcases List.mem_cons.mp hbmem with rfl | hbmem
    · exact ha0
    · exact (hb b hbmem).2
  have hacons : asum ((m0, a0) :: buys) = a0 + asum buys := asum_cons _ _
  have hwcons : wsum ((m0, a0) :: buys) = m0 * a0 + wsum buys := wsum_cons _ _
  have havg : e2.entryMarketCap = wsum ((m0, a0) :: buys) / asum ((m0, a0) :: buys) := by
    rw [hwcons, hacons, eq_div_iff (ne_of_gt htot), ← hinv2, hprod]
  refine ⟨e2, s.entries, h1, havg, ?_, ?_⟩
  · intro c hc
    rw [havg, hacons, hwcons]
    rw [le_div_iff₀ htot]
    have := wsum_lower_bound c hallpos hc
    rw [hacons, hwcons] at this
    linarith
  · intro C hC
    rw [havg, hacons, hwcons]
    rw [div_le_iff₀ htot]
    have := wsum_upper_bound C hallpos hC
    rw [hacons, hwcons] at this
    linarith

/-- Witness for `c5_weighted_average`: scenario A's opening `(1000, 2)`
followed by the single DCA buy `(2000, 2)`; the weighted average is
6000/4 = 1500, within [1000, 2000]. -/
theorem c5_weighted_average_witness :
    ∃ e2 rest,
      (applyBuys (addEntry (setStartingBalance 10) "X" 1000 2)
        (toString (setStartingBalance 10).nextId) [(2000, 2)]).entries =
        e2 :: rest ∧
      e2.entryMarketCap = wsum ((1000, 2) :: [(2000, 2)]) / asum ((1000, 2) :: [(2000, 2)]) ∧
      (∀ c, (∀ b ∈ (1000, 2) :: [((2000 : ℚ), (2 : ℚ))], c ≤ b.1) → c ≤ e2.entryMarketCap) ∧
      (∀ C, (∀ b ∈ (1000, 2) :: [((2000 : ℚ), (2 : ℚ))], b.1 ≤ C) → e2.entryMarketCap ≤ C) :=
  c5_weighted_average (setStartingBalance 10) "X" 1000 2 [(2000, 2)]
    (by norm_num) (by norm_num)
    (by intro b hbm; simp at hbm; simp [hbm])
    (by norm_num [asum, setStartingBalance])

end SolPaperTrader
